import Mathlib

/-!
Verification of the rate-estimation and likelihood-diagnostic engine of the
`uk_companies` repository (`poisson_trace_stats.py`).

The Python module is shallowly embedded over `ℚ`:

* machine floats become exact rationals;
* the sklearn `PoissonRegressor` fit-and-predict step is an abstract function
  parameter (`FitPredict`), since the iterative solver is an external library;
* the scipy Poisson CDF and the natural logarithm are likewise abstract
  function parameters (`PoissonCdf`, `LogFn`);
* Python `assert` failures and shape errors are `Except` errors;
* the numpy time array mutated in place by `rate_trace_extract` is modelled as
  a function `ℕ → ℚ` indexed by position, updated functionally at each loop
  step exactly where the in-place `-=` writes through the slice view;
* the random draws of `simulate_cumulative_likelihood_sample` (the
  `npr.choice` rates and the Poisson-sampled counts) are passed as explicit
  inputs, randomness being the only non-determinism.
-/

namespace PoissonTraceStats

/-- Errors surfaced by the module: the spec's taxonomy maps the Python
`assert` in `polynomial_rate_trend_predict` line 45 / `rate_trace_extract`
line 97 to `insufficientData`, the paired-length `assert`s (lines 46, 98) to
`shapeMismatch`; `assertionFailed` covers the remaining plain `assert`s of
`simulate_cumulative_likelihood_sample`, and `broadcastError` the numpy
`ValueError` raised when arrays of incompatible lengths are broadcast. -/
inductive PtErr where
  | insufficientData
  | shapeMismatch
  | assertionFailed
  | broadcastError
deriving DecidableEq

/-- `np.mean` on a list of counts, as an exact rational. -/
def npMean (xs : List ℕ) : ℚ := (xs.sum : ℚ) / xs.length

/-- `np.clip(x, lo, hi) = min (max x lo) hi` (numpy returns `hi` when `lo > hi`). -/
def npClip (x lo hi : ℚ) : ℚ := min (max x lo) hi

/-- Abstract interface for the external `sklearn.linear_model.PoissonRegressor`
fit-and-predict step: given the design matrix, the counts, the iteration
budget and the row of powers of the prediction time, it returns the predicted
value. Any concrete solver is one such function. -/
def FitPredict : Type := List (List ℚ) → List ℕ → ℕ → List ℚ → ℚ

/-- The design matrix of `polynomial_rate_trend_predict` lines 56-59: one row
per observation, column `k` (0-indexed) holding the time raised to `k+1`;
the zeroth power is skipped because the regressor fits the intercept. -/
def designMatrix (time_arr : List ℚ) (degree : ℕ) : List (List ℚ) :=
  time_arr.map (fun t => (List.range degree).map (fun k => t ^ (k + 1)))

/-- `polynomial_rate_trend_predict` (lines 20-69).  The polynomial degree is a
natural number, so the source's first `assert poisson_fit_poly_degree >= 0`
always passes.  Then, in source order: `assert len(count_arr) >
poisson_fit_poly_degree`, `assert len(count_arr)==len(time_arr)`, the
degree-0 early return of `np.mean(count_arr)` (line 49, unclamped), and the
general case which consults the abstract solver on the design matrix and
clamps with `np.clip(·, 0.0, max_rate)` (line 67). -/
def polynomial_rate_trend_predict (fit : FitPredict) (count_arr : List ℕ)
    (time_arr : List ℚ) (predict_time : ℚ) (max_rate : ℚ)
    (poisson_fit_poly_degree : ℕ) (poisson_fit_max_iter_count : ℕ) :
    Except PtErr ℚ :=
  if count_arr.length ≤ poisson_fit_poly_degree then .error .insufficientData
  else if count_arr.length ≠ time_arr.length then .error .shapeMismatch
  else if poisson_fit_poly_degree = 0 then .ok (npMean count_arr)
  else
    let delay_mat := designMatrix time_arr poisson_fit_poly_degree
    let predict_row :=
      (List.range poisson_fit_poly_degree).map (fun k => predict_time ^ (k + 1))
    .ok (npClip (fit delay_mat count_arr poisson_fit_max_iter_count predict_row)
      0 max_rate)

instance {ε α : Type} [DecidableEq ε] [DecidableEq α] : DecidableEq (Except ε α) :=
  fun a b =>
    match a, b with
    | .error e, .error f => decidable_of_iff (e = f) (by simp)
    | .error _, .ok _ => isFalse (fun h => nomatch h)
    | .ok _, .error _ => isFalse (fun h => nomatch h)
    | .ok a, .ok b => decidable_of_iff (a = b) (by simp)

/-- Comparison of `(time, count)` pairs by time, the key used by
`np.argsort(time_arr)` in `rate_trace_extract` line 110. -/
def timeOrder (a b : ℚ × ℕ) : Prop := a.1 ≤ b.1

instance : DecidableRel timeOrder :=
  fun a b => inferInstanceAs (Decidable (a.1 ≤ b.1))

instance : IsTotal (ℚ × ℕ) timeOrder := ⟨fun a b => le_total a.1 b.1⟩

instance : IsTrans (ℚ × ℕ) timeOrder := ⟨fun _ _ _ h h' => le_trans h h'⟩

/-- Lines 110-112: reorder the paired times and counts by increasing time.
`np.argsort` uses an unspecified deterministic tie order; the embedding fixes
a stable sort, one legitimate instance of that behaviour. -/
def sortPairs (time_arr : List ℚ) (count_arr : List ℕ) : List (ℚ × ℕ) :=
  List.insertionSort timeOrder (time_arr.zip count_arr)

/-- Line 107: when no time array is supplied, synthesize `np.arange(len)`. -/
def resolveTimes (time_arr : Option (List ℚ)) (n : ℕ) : List ℚ :=
  match time_arr with
  | none => (List.range n).map (fun k : ℕ => (k : ℚ))
  | some ts => ts

/-- The arguments one iteration of the loop in `rate_trace_extract`
(lines 115-136) passes to `polynomial_rate_trend_predict`. -/
structure PredArgs where
  prior_counts : List ℕ
  rel_prior_times : List ℚ
  rel_cur_time : ℚ
  call_max_rate : ℚ
deriving DecidableEq

/-- One iteration of the loop body, lines 116-136, at position `i`, with the
current contents of the (mutated) numpy time array given as `T : ℕ → ℚ`.

The Python statement `rel_prior_time_arr = time_arr[a:b]` binds a view, so the
following `rel_prior_time_arr -= time_arr[i_pt-1]` writes the subtraction
through to `time_arr` itself: the updated state `T'` differs from `T` exactly
on indices `i-W ≤ k < i`.  The subtracted scalar `time_arr[i_pt-1]` is read
(copied) before the in-place subtraction.  `rel_cur_time` is computed from the
array after the write-through, and `time_arr[i_pt]`, stored as the output
time, is also read from the updated array. -/
def stepArgs (count_arr : List ℕ) (W : ℕ) (T : ℕ → ℚ) (i : ℕ) :
    PredArgs × (ℕ → ℚ) :=
  let prior := (count_arr.drop (i - W)).take W
  let s := T (i - 1)
  let T' := fun k => if i - W ≤ k ∧ k < i then T k - s else T k
  let relPrior := (List.range W).map (fun m => T' (i - W + m))
  ({ prior_counts := prior, rel_prior_times := relPrior,
     rel_cur_time := T' i - T' (i - 1),
     call_max_rate := npMean prior * 10 }, T')

/-- The loop of `rate_trace_extract` lines 115-139: starting at position `i`
with `fuel` iterations left (`fuel = len(count_arr) - i` at entry), emit for
each position the pair `(time_arr[i_pt], cur_rate)`, propagating the mutated
time array state and any exception from the predictor. -/
def rateLoop (fit : FitPredict) (count_arr : List ℕ) (W deg iter : ℕ) :
    (ℕ → ℚ) → ℕ → ℕ → Except PtErr (List (ℚ × ℚ))
  | _, _, 0 => .ok []
  | T, i, fuel + 1 =>
    match polynomial_rate_trend_predict fit
        (stepArgs count_arr W T i).1.prior_counts
        (stepArgs count_arr W T i).1.rel_prior_times
        (stepArgs count_arr W T i).1.rel_cur_time
        (stepArgs count_arr W T i).1.call_max_rate deg iter with
    | .error e => .error e
    | .ok r =>
      match rateLoop fit count_arr W deg iter (stepArgs count_arr W T i).2
          (i + 1) fuel with
      | .error e => .error e
      | .ok rest => .ok (((stepArgs count_arr W T i).2 i, r) :: rest)

/-- `rate_trace_extract` (lines 73-141).  In source order: the window-size
`assert` (line 97), the optional-shape `assert` (lines 98-99), time synthesis
(lines 106-107), the argsort reorder (lines 110-112), then the rolling loop.
Returns, as the Python function does, the pair
`(predicted_time_arr, predicted_rate_arr)`. -/
def rate_trace_extract (fit : FitPredict) (count_arr : List ℕ)
    (time_arr : Option (List ℚ)) (poisson_fit_window_size : ℕ)
    (poisson_fit_poly_degree : ℕ) (poisson_fit_max_iter_count : ℕ) :
    Except PtErr (List ℚ × List ℚ) :=
  if count_arr.length ≤ poisson_fit_window_size then .error .insufficientData
  else if ¬ (time_arr = none ∨
      (resolveTimes time_arr count_arr.length).length = count_arr.length) then
    .error .shapeMismatch
  else
    match rateLoop fit
        ((sortPairs (resolveTimes time_arr count_arr.length) count_arr).map
          Prod.snd)
        poisson_fit_window_size poisson_fit_poly_degree
        poisson_fit_max_iter_count
        (fun k => ((sortPairs (resolveTimes time_arr count_arr.length)
          count_arr).map Prod.fst).getD k 0)
        poisson_fit_window_size
        (count_arr.length - poisson_fit_window_size) with
    | .error e => .error e
    | .ok l => .ok (l.map Prod.fst, l.map Prod.snd)

/-- The list of argument records the loop passes to the predictor, one per
window position, derived from the same `stepArgs` body as `rateLoop`. -/
def argsLoop (count_arr : List ℕ) (W : ℕ) : (ℕ → ℚ) → ℕ → ℕ → List PredArgs
  | _, _, 0 => []
  | T, i, fuel + 1 =>
    let p := stepArgs count_arr W T i
    p.1 :: argsLoop count_arr W p.2 (i + 1) fuel

/-- The predictor-call arguments produced by `rate_trace_extract` on the given
input, position by position (defined whenever the two leading `assert`s
pass). -/
def rate_trace_predictor_args (count_arr : List ℕ)
    (time_arr : Option (List ℚ)) (W : ℕ) : List PredArgs :=
  let pairs := sortPairs (resolveTimes time_arr count_arr.length) count_arr
  let T0 : ℕ → ℚ := fun k => (pairs.map Prod.fst).getD k 0
  argsLoop (pairs.map Prod.snd) W T0 W (count_arr.length - W)

/-- Abstract interface for `scipy.stats.poisson(rate).cdf(count)`: the Poisson
cumulative distribution value of a count under a rate.  The transcendental
function itself is an external library routine. -/
def PoissonCdf : Type := ℚ → ℕ → ℚ

/-- Abstract interface for `np.log` on a (positive) histogram bin count. -/
def LogFn : Type := ℕ → ℚ

/-- `np.linspace lo hi m`: `m` equally spaced points from `lo` to `hi`
inclusive (`lo + k*(hi-lo)/(m-1)`; exact in `ℚ`). -/
def npLinspace (lo hi : ℚ) (m : ℕ) : List ℚ :=
  (List.range m).map (fun k : ℕ => lo + (k : ℚ) * ((hi - lo) / ((m : ℚ) - 1)))

/-- Membership of a sample in bin `j` of `np.histogram` with the given edge
list: half-open `[e_j, e_{j+1})` for every bin except the last, which is
closed `[e_{n-1}, e_n]`. -/
def inHistBin (edges : List ℚ) (j : ℕ) (x : ℚ) : Bool :=
  decide (edges.getD j 0 ≤ x) &&
    (if j + 2 = edges.length then decide (x ≤ edges.getD (j + 1) 0)
     else decide (x < edges.getD (j + 1) 0))

/-- The bin-count vector of `np.histogram(xs, bins=edges)`: for each of the
`edges.length - 1` bins, the number of samples falling in it (samples outside
the edge range are dropped). -/
def npHistogram (xs : List ℚ) (edges : List ℚ) : List ℕ :=
  (List.range (edges.length - 1)).map
    (fun j => (xs.filter (fun x => inHistBin edges j x)).length)

/-- `compute_histogram_entropy_poisson` (lines 185-208).  The function has no
`assert`s: `sp_st.poisson(poisson_rate_arr).cdf(counts_arr)` (line 204)
broadcasts the two arrays under numpy rules — equal lengths pair up
elementwise, a length-1 array is stretched, and any other combination raises
a `ValueError` (`broadcastError` here).  Lines 205-206 histogram the
cumulative likelihoods over `bin_count` bins spanning `[0-eps, 1+eps]` and
sum `log(c)/c` over the nonzero bin counts. -/
def compute_histogram_entropy_poisson (cdf : PoissonCdf) (log : LogFn)
    (poisson_rate_arr : List ℚ) (counts_arr : List ℕ)
    (histogram_bin_count : ℕ) (eps : ℚ) : Except PtErr ℚ :=
  let cum? : Option (List ℚ) :=
    if poisson_rate_arr.length = counts_arr.length then
      some (List.zipWith cdf poisson_rate_arr counts_arr)
    else if poisson_rate_arr.length = 1 then
      some (counts_arr.map (cdf (poisson_rate_arr.getD 0 0)))
    else if counts_arr.length = 1 then
      some (poisson_rate_arr.map (fun r => cdf r (counts_arr.getD 0 0)))
    else none
  match cum? with
  | none => .error .broadcastError
  | some cum_lkhd_arr =>
    let bin_counts := npHistogram cum_lkhd_arr
      (npLinspace (0 - eps) (1 + eps) (histogram_bin_count + 1))
    .ok (((bin_counts.filter (fun c => 0 < c)).map
      (fun c => log c / (c : ℚ))).sum)

/-- `simulate_cumulative_likelihood_sample` (lines 147-179).  The random
draws are made explicit: `drawn_rate_arr` stands for the
`npr.choice(rate_option_arr, size=sample_count)` result (so `sample_count`
is its length) and `drawn_count_arr` for the Poisson counts sampled from it
by `sp_st.poisson(rate_arr).rvs()` (same length).  The three `assert`s of
lines 167-169 precede any computation.  Lines 174-177 compute the cumulative
likelihood of each synthetic count under its own generating rate, histogram
them over `entropy_bin_count` bins spanning `[0-eps, 1+eps]`, and sum
`log(c)/c` over the nonzero bin counts. -/
def simulate_cumulative_likelihood_sample (cdf : PoissonCdf) (log : LogFn)
    (rate_option_arr : List ℚ) (drawn_rate_arr : List ℚ)
    (drawn_count_arr : List ℕ) (entropy_bin_count : ℕ) (eps : ℚ) :
    Except PtErr (List ℚ × ℚ) :=
  if drawn_rate_arr.length = 0 then .error .assertionFailed
  else if entropy_bin_count ≤ 1 then .error .assertionFailed
  else if rate_option_arr.length = 0 then .error .assertionFailed
  else
    let cumulative_likelihood_arr := List.zipWith cdf drawn_rate_arr drawn_count_arr
    let bin_counts := npHistogram cumulative_likelihood_arr
      (npLinspace (0 - eps) (1 + eps) (entropy_bin_count + 1))
    .ok (cumulative_likelihood_arr,
      ((bin_counts.filter (fun c => 0 < c)).map
        (fun c => log c / (c : ℚ))).sum)

/-! Concrete instantiations of the abstract library interfaces, used to
exercise the theorems on closed inputs. -/

/-- A constant solver: predicts `q` whatever the design matrix. -/
def fitConst (q : ℚ) : FitPredict := fun _ _ _ _ => q

/-- A degenerate stand-in CDF (constant 0). -/
def cdfZero : PoissonCdf := fun _ _ => 0

/-- A degenerate stand-in logarithm (constant 0). -/
def logZero : LogFn := fun _ => 0

/-- C5: with degree 0 the predictor performs no regression and returns exactly
the arithmetic mean of the counts, for every solver, time array of matching
length, target time, max rate and iteration budget — the result depends on
none of them. -/
theorem predict_degree_zero_eq_mean (fit : FitPredict) (count_arr : List ℕ)
    (time_arr : List ℚ) (predict_time max_rate : ℚ) (iter : ℕ)
    (hc : count_arr ≠ []) (hs : count_arr.length = time_arr.length) :
    polynomial_rate_trend_predict fit count_arr time_arr predict_time
      max_rate 0 iter = .ok ((count_arr.sum : ℚ) / count_arr.length) := by
  unfold polynomial_rate_trend_predict
  rw [if_neg (by simpa using hc), if_neg (by simp [hs]),
    if_pos rfl]
  rfl

/-- Witness for C5 at a closed input: mean of `[2, 4]` is `3`. -/
theorem predict_degree_zero_eq_mean_witness :
    polynomial_rate_trend_predict (fitConst 0) [2, 4] [5, 9] 3 7 0 11
      = .ok 3 := by
  rw [predict_degree_zero_eq_mean (fitConst 0) [2, 4] [5, 9] 3 7 11
    (by decide) rfl]
  with_unfolding_all decide

/-- C6: too few observations for the model order surface immediately as
`insufficientData`, both for the predictor (`len(counts) ≤ degree`) and for
the extractor (`window_size ≥ len(counts)`), before any fitting work. -/
theorem insufficient_data_checks (fit : FitPredict) (count_arr : List ℕ)
    (time_arr : List ℚ) (count_arr2 : List ℕ) (topt : Option (List ℚ))
    (predict_time max_rate : ℚ) (deg W iter : ℕ)
    (hp : count_arr.length ≤ deg) (hw : count_arr2.length ≤ W) :
    polynomial_rate_trend_predict fit count_arr time_arr predict_time
        max_rate deg iter = .error .insufficientData ∧
      rate_trace_extract fit count_arr2 topt W deg iter
        = .error .insufficientData := by
  constructor
  · unfold polynomial_rate_trend_predict
    rw [if_pos hp]
  · unfold rate_trace_extract
    rw [if_pos hw]

/-- Witness for C6: 3 counts with degree 3, and a window of 2 over 2 counts. -/
theorem insufficient_data_checks_witness :
    polynomial_rate_trend_predict (fitConst 0) [1, 2, 3] [0, 1, 2] 3 10 3 5
        = .error .insufficientData ∧
      rate_trace_extract (fitConst 0) [1, 2] (some [0, 1]) 2 1 5
        = .error .insufficientData :=
  insufficient_data_checks (fitConst 0) [1, 2, 3] [0, 1, 2] [1, 2]
    (some [0, 1]) 3 10 3 2 5 (by decide) (by decide)

/-- C2 counterexample: the degree-0 path returns the raw mean without any
clamping, so with counts `[100]` and `max_rate = 1` (all preconditions
satisfied) the predictor returns `100 ∉ [0, 1]`. -/
theorem predict_unclamped_at_degree_zero :
    polynomial_rate_trend_predict (fitConst 0) [100] [0] 0 1 0 1000
        = .ok 100 ∧
      ¬ ((0 : ℚ) ≤ 100 ∧ (100 : ℚ) ≤ 1) := by
  with_unfolding_all decide

/-- C2 amended: for every degree ≥ 1 (the case the spec's clamping sentence
covers) and `max_rate ≥ 0`, any successful predictor result lies in
`[0, max_rate]`, whatever value the solver produced. -/
theorem predict_clamped_for_degree_pos (fit : FitPredict) (count_arr : List ℕ)
    (time_arr : List ℚ) (predict_time max_rate r : ℚ) (deg iter : ℕ)
    (hd : 1 ≤ deg) (hmr : 0 ≤ max_rate)
    (h : polynomial_rate_trend_predict fit count_arr time_arr predict_time
      max_rate deg iter = .ok r) :
    0 ≤ r ∧ r ≤ max_rate := by
  unfold polynomial_rate_trend_predict at h
  split at h
  · exact absurd h (by simp)
  split at h
  · exact absurd h (by simp)
  split at h
  · omega
  · simp only [Except.ok.injEq] at h
    subst h
    refine ⟨le_min (le_max_right _ _) hmr, min_le_right _ _⟩

/-- Witness for C2's amended theorem: a solver output of 7 is clamped to the
max rate 5, which lies in `[0, 5]`. -/
theorem predict_clamped_for_degree_pos_witness :
    polynomial_rate_trend_predict (fitConst 7) [1, 2] [0, 1] 3 5 1 1000
        = .ok 5 ∧ ((0 : ℚ) ≤ 5 ∧ (5 : ℚ) ≤ 5) := by
  have hok : polynomial_rate_trend_predict (fitConst 7) [1, 2] [0, 1] 3 5 1 1000
      = .ok 5 := by with_unfolding_all decide
  exact ⟨hok, predict_clamped_for_degree_pos (fitConst 7) [1, 2] [0, 1] 3 5 5 1
    1000 (by decide) (by decide) hok⟩

/-- C7 counterexample: `compute_histogram_entropy_poisson` performs no length
check at all — with one rate and two counts (lengths 1 ≠ 2) numpy
broadcasting stretches the rate and the call returns a value instead of
raising `shapeMismatch`. -/
theorem diagnostic_without_shape_check :
    compute_histogram_entropy_poisson cdfZero logZero [5] [1, 2] 3
        (1 / 1000000) = .ok 0 ∧
      ([(5 : ℚ)] : List ℚ).length ≠ ([1, 2] : List ℕ).length := by
  with_unfolding_all decide

/-- C7 amended: in the predictor and the rolling extractor, paired sequences
of different lengths raise `shapeMismatch`, provided the insufficient-data
check that precedes them passes; the likelihood-histogram diagnostic has no
such check. -/
theorem shape_mismatch_checks (fit : FitPredict) (count_arr : List ℕ)
    (time_arr : List ℚ) (count_arr2 : List ℕ) (time_arr2 : List ℚ)
    (predict_time max_rate : ℚ) (deg W iter : ℕ)
    (hp : deg < count_arr.length) (hne : count_arr.length ≠ time_arr.length)
    (hw : W < count_arr2.length) (hne2 : time_arr2.length ≠ count_arr2.length) :
    polynomial_rate_trend_predict fit count_arr time_arr predict_time
        max_rate deg iter = .error .shapeMismatch ∧
      rate_trace_extract fit count_arr2 (some time_arr2) W deg iter
        = .error .shapeMismatch := by
  constructor
  · unfold polynomial_rate_trend_predict
    rw [if_neg (not_le.mpr hp), if_pos hne]
  · unfold rate_trace_extract
    rw [if_neg (not_le.mpr hw), if_pos (by simp [resolveTimes, hne2])]

/-- Witness for C7's amended theorem. -/
theorem shape_mismatch_checks_witness :
    polynomial_rate_trend_predict (fitConst 0) [1, 2] [0] 3 10 1 5
        = .error .shapeMismatch ∧
      rate_trace_extract (fitConst 0) [1, 2] (some [0]) 1 1 5
        = .error .shapeMismatch :=
  shape_mismatch_checks (fitConst 0) [1, 2] [0] [1, 2] [0] 3 10 1 1 5
    (by decide) (by decide) (by decide) (by decide)

/-- C9: for every drawn rate array and the synthetic counts sampled from it,
the entropy statistic of the calibration simulator is exactly what the
likelihood-histogram diagnostic returns on those same rates and counts with
the same bin count and epsilon. -/
theorem simulator_entropy_refines_diagnostic (cdf : PoissonCdf) (log : LogFn)
    (rate_option_arr drawn_rate_arr : List ℚ) (drawn_count_arr : List ℕ)
    (b : ℕ) (eps : ℚ) (l : List ℚ) (e : ℚ)
    (hlen : drawn_rate_arr.length = drawn_count_arr.length)
    (hsim : simulate_cumulative_likelihood_sample cdf log rate_option_arr
      drawn_rate_arr drawn_count_arr b eps = .ok (l, e)) :
    compute_histogram_entropy_poisson cdf log drawn_rate_arr drawn_count_arr
      b eps = .ok e := by
  unfold simulate_cumulative_likelihood_sample at hsim
  split at hsim
  · exact absurd hsim (by simp)
  split at hsim
  · exact absurd hsim (by simp)
  split at hsim
  · exact absurd hsim (by simp)
  · simp only [Except.ok.injEq, Prod.mk.injEq] at hsim
    unfold compute_histogram_entropy_poisson
    simp only [hlen, if_pos rfl]
    exact congrArg Except.ok hsim.2

/-- Witness for C9 at a closed input: one draw of rate 5 with synthetic count
0, two bins. -/
theorem simulator_entropy_refines_diagnostic_witness :
    compute_histogram_entropy_poisson cdfZero logZero [5] [0] 2 (1 / 1000000)
      = .ok 0 :=
  simulator_entropy_refines_diagnostic cdfZero logZero [5] [5] [0] 2
    (1 / 1000000) [0] 0 rfl (by with_unfolding_all decide)

/-- A solver that echoes the first entry of the prediction row, i.e. the
target time raised to the first power — a convenient probe for which target
time the extractor hands to the predictor. -/
def fitTarget : FitPredict := fun _ _ _ predict_row => predict_row.headD 0

/-- C1 (code-bug evidence): on counts `[1,1,1,1]`, times `[0,1,2,3]`,
`window_size = 2`, the predictor is invoked with target times `[2, 3]` and
window times `[[-1, 0], [-2, 0]]`; the claim (and the code's own comment)
require target times `times[i] - times[i-1] = [1, 1]` and, at the second
position, window times `[times[1] - times[2], 0] = [-1, 0]`.  The slice
`rel_prior_time_arr` is a numpy view, so the in-place `-=` of line 126
corrupts `time_arr` itself, and `time_arr[i_pt-1]` is zero by the time line
127 computes `rel_cur_time`. -/
theorem recentering_broken_at_concrete_input :
    (rate_trace_predictor_args [1, 1, 1, 1] (some [0, 1, 2, 3]) 2).map
        PredArgs.rel_cur_time = [2, 3] ∧
      (rate_trace_predictor_args [1, 1, 1, 1] (some [0, 1, 2, 3]) 2).map
        PredArgs.rel_prior_times = [[-1, 0], [-2, 0]] ∧
      ([2, 3] : List ℚ) ≠ [(2 : ℚ) - 1, (3 : ℚ) - 2] ∧
      ([[-1, 0], [-2, 0]] : List (List ℚ))
        ≠ [[(0 : ℚ) - 1, 0], [(1 : ℚ) - 2, 0]] := by
  with_unfolding_all decide

/-- C3 (code-bug evidence): shifting every time by `C = 1` changes the
extracted rates.  With the probe solver the rates are the target times the
loop computes, and because of the in-place slice mutation those are the
absolute times `[2, 3]` (respectively `[3, 4]` after the shift) rather than
the shift-invariant deltas `[1, 1]`. -/
theorem shift_invariance_broken_at_concrete_input :
    rate_trace_extract fitTarget [1, 1, 1, 1] (some [0, 1, 2, 3]) 2 1 1000
        = .ok ([2, 3], [2, 3]) ∧
      rate_trace_extract fitTarget [1, 1, 1, 1] (some [1, 2, 3, 4]) 2 1 1000
        = .ok ([3, 4], [3, 4]) ∧
      ([2, 3] : List ℚ) ≠ [3, 4] := by
  with_unfolding_all decide

/-- The mean of an all-zero count list is zero. -/
theorem npMean_eq_zero {xs : List ℕ} (h : ∀ x ∈ xs, x = 0) : npMean xs = 0 := by
  unfold npMean
  rw [List.sum_eq_zero h]
  simp

/-- When the window counts are all zero the extractor's data-adaptive ceiling
`10 × mean` is zero, so any successful predictor result is zero: for degree 0
it is the zero mean itself, for degree ≥ 1 it is clamped into `[0, 0]`. -/
theorem predict_zero_of_zero_window (fit : FitPredict) (count_arr : List ℕ)
    (time_arr : List ℚ) (predict_time : ℚ) (deg iter : ℕ) (r : ℚ)
    (hz : ∀ x ∈ count_arr, x = 0)
    (h : polynomial_rate_trend_predict fit count_arr time_arr predict_time
      (npMean count_arr * 10) deg iter = .ok r) :
    r = 0 := by
  rw [npMean_eq_zero hz, zero_mul] at h
  unfold polynomial_rate_trend_predict at h
  split at h
  · exact absurd h (by simp)
  split at h
  · exact absurd h (by simp)
  split at h
  · simp only [Except.ok.injEq] at h
    rw [← h]
    exact npMean_eq_zero hz
  · simp only [Except.ok.injEq] at h
    rw [← h]
    unfold npClip
    exact min_eq_right (le_max_right _ _)

/-- A successful run of the rolling loop emits one pair per iteration. -/
theorem rateLoop_length (fit : FitPredict) (count_arr : List ℕ)
    (W deg iter : ℕ) :
    ∀ (fuel : ℕ) (T : ℕ → ℚ) (i : ℕ) (l : List (ℚ × ℚ)),
      rateLoop fit count_arr W deg iter T i fuel = .ok l → l.length = fuel := by
  intro fuel
  induction fuel with
  | zero =>
    intro T i l h
    simp only [rateLoop, Except.ok.injEq] at h
    rw [← h]
    rfl
  | succ fuel ih =>
    intro T i l h
    unfold rateLoop at h
    split at h
    · exact absurd h (by simp)
    · split at h
      · exact absurd h (by simp)
      · simp only [Except.ok.injEq] at h
        rw [← h]
        simpa using ih _ _ _ (by assumption)

/-- In a successful run of the rolling loop starting at position `i ≥ W`, an
emitted rate whose preceding `W`-count window is all zero is itself zero. -/
theorem rateLoop_zero_window (fit : FitPredict) (count_arr : List ℕ)
    (W deg iter : ℕ) :
    ∀ (fuel : ℕ) (T : ℕ → ℚ) (i m : ℕ) (l : List (ℚ × ℚ)),
      W ≤ i →
      rateLoop fit count_arr W deg iter T i fuel = .ok l →
      m < fuel →
      (∀ x ∈ (count_arr.drop (i - W + m)).take W, x = 0) →
      (l.getD m (0, 0)).2 = 0 := by
  intro fuel
  induction fuel with
  | zero =>
    intro T i m l _ _ hm
    omega
  | succ fuel ih =>
    intro T i m l hWi h hm hz
    unfold rateLoop at h
    split at h
    · exact absurd h (by simp)
    · rename_i r hpred
      split at h
      · exact absurd h (by simp)
      · rename_i rest hrec
        simp only [Except.ok.injEq] at h
        rw [← h]
        match m with
        | 0 =>
          simp only [List.getD_cons_zero]
          have hpred' : polynomial_rate_trend_predict fit
              ((count_arr.drop (i - W)).take W)
              ((stepArgs count_arr W T i).1.rel_prior_times)
              ((stepArgs count_arr W T i).1.rel_cur_time)
              (npMean ((count_arr.drop (i - W)).take W) * 10) deg iter
              = .ok r := hpred
          exact predict_zero_of_zero_window fit _ _ _ deg iter r
            (by simpa using hz) hpred'
        | m' + 1 =>
          simp only [List.getD_cons_succ]
          refine ih _ (i + 1) m' _ (by omega) hrec (by omega) ?_
          have hidx : i + 1 - W + m' = i - W + (m' + 1) := by omega
          rw [hidx]
          exact hz

/-- Reading the `m`-th rate out of the unzipped loop output. -/
theorem getD_map_snd (l : List (ℚ × ℚ)) (m : ℕ) (hm : m < l.length) :
    (l.map Prod.snd).getD m 0 = (l.getD m (0, 0)).2 := by
  rw [List.getD_eq_getElem?_getD, List.getD_eq_getElem?_getD,
    List.getElem?_map, List.getElem?_eq_getElem hm]
  rfl

/-- C10: whenever the rolling extractor succeeds, a window position whose
`window_size` preceding (time-sorted) counts are all zero receives a rate of
exactly 0, for any degree: the data-adaptive ceiling `10 × mean(window)` is
0, so for degree ≥ 1 the clamp to `[0, 0]` forces the prediction to 0, and
for degree 0 the mean itself is 0. -/
theorem zero_window_forces_zero_rate (fit : FitPredict) (count_arr : List ℕ)
    (time_arr : Option (List ℚ)) (W deg iter m : ℕ) (ts rs : List ℚ)
    (h : rate_trace_extract fit count_arr time_arr W deg iter = .ok (ts, rs))
    (hm : m < count_arr.length - W)
    (hz : ∀ x ∈ (((sortPairs (resolveTimes time_arr count_arr.length)
      count_arr).map Prod.snd).drop m).take W, x = 0) :
    rs.getD m 0 = 0 := by
  unfold rate_trace_extract at h
  split at h
  · exact absurd h (by simp)
  split at h
  · exact absurd h (by simp)
  split at h
  · exact absurd h (by simp)
  · rename_i l hloop
    simp only [Except.ok.injEq, Prod.mk.injEq] at h
    obtain ⟨hts, hrs⟩ := h
    have hlen := rateLoop_length fit _ W deg iter _ _ _ _ hloop
    have h0 := rateLoop_zero_window fit _ W deg iter _ _ W m l le_rfl hloop
      (by omega) (by simpa using hz)
    rw [← hrs, getD_map_snd l m (by omega)]
    exact h0

/-- Witness for C10: counts `[0, 0, 3]`, window 2, degree 1, a solver output
of 7 clamped by the zero ceiling. -/
theorem zero_window_forces_zero_rate_witness :
    rate_trace_extract (fitConst 7) [0, 0, 3] none 2 1 5 = .ok ([2], [0]) ∧
      ([(0 : ℚ)] : List ℚ).getD 0 0 = 0 := by
  have h : rate_trace_extract (fitConst 7) [0, 0, 3] none 2 1 5
      = .ok ([2], [0]) := by with_unfolding_all decide
  exact ⟨h, zero_window_forces_zero_rate (fitConst 7) [0, 0, 3] none 2 1 5 0
    [2] [0] h (by decide) (by with_unfolding_all decide)⟩

/-- With matching lengths and strictly more observations than the degree, the
predictor always returns a value (no exception escapes). -/
theorem predict_ok (fit : FitPredict) (c : List ℕ) (t : List ℚ)
    (predict_time max_rate : ℚ) (deg iter : ℕ) (hlen : c.length = t.length)
    (hdeg : deg < c.length) :
    ∃ r, polynomial_rate_trend_predict fit c t predict_time max_rate deg iter
      = .ok r := by
  unfold polynomial_rate_trend_predict
  rw [if_neg (not_le.mpr hdeg), if_neg (by simp [hlen])]
  by_cases h0 : deg = 0
  · rw [if_pos h0]
    exact ⟨_, rfl⟩
  · rw [if_neg h0]
    exact ⟨_, rfl⟩

/-- The rolling loop succeeds whenever the degree is below the window size
and the remaining iterations stay inside the count list. -/
theorem rateLoop_ok (fit : FitPredict) (count_arr : List ℕ)
    (W deg iter : ℕ) (hdeg : deg < W) :
    ∀ (fuel : ℕ) (T : ℕ → ℚ) (i : ℕ), W ≤ i → i + fuel ≤ count_arr.length →
      ∃ l, rateLoop fit count_arr W deg iter T i fuel = .ok l := by
  intro fuel
  induction fuel with
  | zero =>
    intro T i _ _
    exact ⟨[], rfl⟩
  | succ fuel ih =>
    intro T i hWi hiN
    have hplen : ((count_arr.drop (i - W)).take W).length = W := by
      rw [List.length_take, List.length_drop]
      omega
    obtain ⟨r, hr⟩ := predict_ok fit ((count_arr.drop (i - W)).take W)
      ((stepArgs count_arr W T i).1.rel_prior_times)
      ((stepArgs count_arr W T i).1.rel_cur_time)
      ((stepArgs count_arr W T i).1.call_max_rate) deg iter
      (by simp [stepArgs, hplen]) (by omega)
    have hr' : polynomial_rate_trend_predict fit
        (stepArgs count_arr W T i).1.prior_counts
        (stepArgs count_arr W T i).1.rel_prior_times
        (stepArgs count_arr W T i).1.rel_cur_time
        (stepArgs count_arr W T i).1.call_max_rate deg iter = .ok r := hr
    obtain ⟨rest, hrest⟩ := ih ((stepArgs count_arr W T i).2) (i + 1)
      (by omega) (by omega)
    refine ⟨((stepArgs count_arr W T i).2 i, r) :: rest, ?_⟩
    unfold rateLoop
    rw [hr', hrest]

/-- Output times of a successful rolling loop run: the stored time at step
`i` is the start state's value at `i`, because the in-place subtraction at a
step only touches indices strictly below the step position, so position `i`
is still unmodified when it is read and stored. -/
theorem rateLoop_times (fit : FitPredict) (count_arr : List ℕ)
    (W deg iter : ℕ) (T0 : ℕ → ℚ) :
    ∀ (fuel : ℕ) (T : ℕ → ℚ) (i : ℕ) (l : List (ℚ × ℚ)),
      (∀ k, i - 1 ≤ k → T k = T0 k) →
      rateLoop fit count_arr W deg iter T i fuel = .ok l →
      l.map Prod.fst = (List.range fuel).map (fun m => T0 (i + m)) := by
  intro fuel
  induction fuel with
  | zero =>
    intro T i l _ h
    simp only [rateLoop, Except.ok.injEq] at h
    rw [← h]
    rfl
  | succ fuel ih =>
    intro T i l hT h
    unfold rateLoop at h
    split at h
    · exact absurd h (by simp)
    · rename_i r hpred
      split at h
      · exact absurd h (by simp)
      · rename_i rest hrec
        simp only [Except.ok.injEq] at h
        rw [← h]
        have hstep : ∀ k, (i + 1) - 1 ≤ k →
            (stepArgs count_arr W T i).2 k = T0 k := by
          intro k hk
          show (if i - W ≤ k ∧ k < i then T k - T (i - 1) else T k) = T0 k
          rw [if_neg (by omega)]
          exact hT k (by omega)
        have htail := ih _ (i + 1) rest hstep hrec
        simp only [List.map_cons, htail, hstep i (by omega)]
        rw [List.range_succ_eq_map, List.map_cons, List.map_map]
        refine congrArg₂ _ (by rw [Nat.add_zero]) ?_
        exact List.map_congr_left fun m _ => by
          show T0 (i + 1 + m) = T0 (i + (m + 1))
          rw [Nat.add_assoc, Nat.add_comm 1 m]

/-- Monotone access into a sorted list of times. -/
theorem sorted_getD_mono {l : List ℚ} (hs : l.Sorted (· ≤ ·)) {a b : ℕ}
    (hab : a ≤ b) (hb : b < l.length) : l.getD a 0 ≤ l.getD b 0 := by
  have ha : a < l.length := lt_of_le_of_lt hab hb
  rw [List.getD_eq_getElem?_getD, List.getD_eq_getElem?_getD,
    List.getElem?_eq_getElem ha, List.getElem?_eq_getElem hb]
  rcases eq_or_lt_of_le hab with rfl | hlt
  · simp
  · simpa using hs.rel_get_of_lt (a := ⟨a, ha⟩) (b := ⟨b, hb⟩) hlt

/-- C4: with the predictor's own well-posedness condition `degree <
window_size` (spec 4.1, since each window passes exactly `window_size`
counts to the predictor) and `window_size < len(counts)`, the extractor
succeeds, returns exactly `len(counts) - window_size` rate/time pairs, and
the returned time array is ascending. -/
theorem extract_output_length_and_sorted (fit : FitPredict)
    (count_arr : List ℕ) (time_arr : Option (List ℚ)) (W deg iter : ℕ)
    (hW : W < count_arr.length) (hdeg : deg < W)
    (hshape : time_arr = none ∨
      (resolveTimes time_arr count_arr.length).length = count_arr.length) :
    ∃ ts rs,
      rate_trace_extract fit count_arr time_arr W deg iter = .ok (ts, rs) ∧
        ts.length = count_arr.length - W ∧
        rs.length = count_arr.length - W ∧ ts.Sorted (· ≤ ·) := by
  have htlen : (resolveTimes time_arr count_arr.length).length
      = count_arr.length := by
    rcases time_arr with _ | ts
    · simp only [resolveTimes, List.length_map, List.length_range]
    · exact hshape.resolve_left (by simp)
  have hpairs : (sortPairs (resolveTimes time_arr count_arr.length)
      count_arr).length = count_arr.length := by
    rw [sortPairs, (List.perm_insertionSort timeOrder _).length_eq,
      List.length_zip, htlen, Nat.min_self]
  have hsortedPairs := List.sorted_insertionSort timeOrder
    ((resolveTimes time_arr count_arr.length).zip count_arr)
  have hsortedTimes : ((sortPairs (resolveTimes time_arr count_arr.length)
      count_arr).map Prod.fst).Sorted (· ≤ ·) :=
    List.Pairwise.map Prod.fst (fun _ _ hab => hab) hsortedPairs
  obtain ⟨l, hl⟩ := rateLoop_ok fit
    ((sortPairs (resolveTimes time_arr count_arr.length) count_arr).map
      Prod.snd) W deg iter hdeg (count_arr.length - W)
    (fun k => ((sortPairs (resolveTimes time_arr count_arr.length)
      count_arr).map Prod.fst).getD k 0) W le_rfl
    (by rw [List.length_map, hpairs]; omega)
  have hlen := rateLoop_length fit _ W deg iter _ _ _ _ hl
  have hts := rateLoop_times fit _ W deg iter _ _ _ _ _
    (fun _ _ => rfl) hl
  refine ⟨l.map Prod.fst, l.map Prod.snd, ?_, ?_, ?_, ?_⟩
  · unfold rate_trace_extract
    rw [if_neg (by omega), if_neg (not_not_intro hshape), hl]
  · rw [List.length_map, hlen]
  · rw [List.length_map, hlen]
  · rw [hts]
    rw [List.Sorted, List.pairwise_iff_getElem]
    intro a b ha hb hab
    simp only [List.length_map, List.length_range] at ha hb
    rw [List.getElem_map, List.getElem_map, List.getElem_range,
      List.getElem_range]
    refine sorted_getD_mono hsortedTimes (by omega) ?_
    have hflen : (List.map Prod.fst (sortPairs
        (resolveTimes time_arr count_arr.length) count_arr)).length
        = count_arr.length := by
      rw [List.length_map, hpairs]
    omega

/-- Witness for C4: counts `[1, 2, 3]`, synthesized times, window 1,
degree 0. -/
theorem extract_output_length_and_sorted_witness :
    ∃ ts rs,
      rate_trace_extract (fitConst 7) [1, 2, 3] none 1 0 5 = .ok (ts, rs) ∧
        ts.length = [1, 2, 3].length - 1 ∧
        rs.length = [1, 2, 3].length - 1 ∧ ts.Sorted (· ≤ ·) :=
  extract_output_length_and_sorted (fitConst 7) [1, 2, 3] none 1 0 5
    (by decide) (by decide) (Or.inl rfl)

/-- Summing a function mapped over `List.range` is a `Finset.range` sum. -/
theorem sum_map_range (f : ℕ → ℚ) :
    ∀ n, ((List.range n).map f).sum = ∑ j ∈ Finset.range n, f j := by
  intro n
  induction n with
  | zero => rfl
  | succ n ih =>
    rw [List.range_succ, List.map_append, List.sum_append,
      Finset.sum_range_succ, ih]
    simp

/-- Keeping only the nonzero bins and mapping is the same as mapping an
if-then-else that sends empty bins to zero. -/
theorem entropy_filter_eq_sum_ite (log : LogFn) (l : List ℕ) :
    ((l.filter (fun c => 0 < c)).map (fun c => log c / (c : ℚ))).sum
      = (l.map (fun c => if 0 < c then log c / (c : ℚ) else 0)).sum := by
  induction l with
  | nil => rfl
  | cons a l ih =>
    by_cases h : 0 < a
    · simp [List.filter_cons, h, ih]
    · simp [List.filter_cons, h, ih]

/-- Closed form of the `j`-th linspace edge. -/
theorem npLinspace_getD (lo hi : ℚ) (m j : ℕ) (hj : j < m) :
    (npLinspace lo hi m).getD j 0
      = lo + j * ((hi - lo) / ((m : ℚ) - 1)) := by
  unfold npLinspace
  rw [List.getD_eq_getElem?_getD, List.getElem?_map,
    List.getElem?_eq_getElem (by simpa using hj)]
  simp

/-- The number of linspace points. -/
theorem npLinspace_length (lo hi : ℚ) (m : ℕ) :
    (npLinspace lo hi m).length = m := by
  unfold npLinspace
  rw [List.length_map, List.length_range]

/-- C8: on equal-length inputs the diagnostic computes each count's Poisson
CDF value under its rate, bins these values into `bin_count` equal-width
bins spanning `[0 - eps, 1 + eps]` (each bin `[lo + j·w, lo + (j+1)·w)` with
`w = (1 + 2·eps)/bin_count`, the last bin right-closed), and returns the sum
over bins of `log c / c` for nonzero bin count `c`, bins of zero count
contributing nothing. -/
theorem diagnostic_histogram_entropy_content (cdf : PoissonCdf) (log : LogFn)
    (rates : List ℚ) (counts : List ℕ) (b : ℕ) (eps : ℚ)
    (hlen : rates.length = counts.length) (hb : 1 ≤ b) :
    compute_histogram_entropy_poisson cdf log rates counts b eps
      = .ok (∑ j ∈ Finset.range b,
          (fun c : ℕ => if 0 < c then log c / (c : ℚ) else 0)
            (((List.zipWith cdf rates counts).filter (fun x =>
              decide ((0 - eps) + j * ((1 + 2 * eps) / b) ≤ x) &&
                (if j = b - 1 then
                  decide (x ≤ (0 - eps) + (j + 1) * ((1 + 2 * eps) / b))
                 else
                  decide (x < (0 - eps) + (j + 1) * ((1 + 2 * eps) / b))))).length)) := by
  unfold compute_histogram_entropy_poisson
  rw [if_pos hlen]
  refine congrArg Except.ok ?_
  unfold npHistogram
  rw [npLinspace_length, Nat.add_sub_cancel, entropy_filter_eq_sum_ite,
    List.map_map, sum_map_range]
  refine Finset.sum_congr rfl ?_
  intro j hj
  rw [Finset.mem_range] at hj
  simp only [Function.comp]
  have hfilter : (List.zipWith cdf rates counts).filter
      (fun x => inHistBin (npLinspace (0 - eps) (1 + eps) (b + 1)) j x)
      = (List.zipWith cdf rates counts).filter (fun x =>
          decide ((0 - eps) + j * ((1 + 2 * eps) / b) ≤ x) &&
            (if j = b - 1 then
              decide (x ≤ (0 - eps) + (j + 1) * ((1 + 2 * eps) / b))
             else
              decide (x < (0 - eps) + (j + 1) * ((1 + 2 * eps) / b)))) := by
    refine List.filter_congr ?_
    intro x _
    unfold inHistBin
    rw [npLinspace_length]
    rw [npLinspace_getD _ _ _ _ (by omega), npLinspace_getD _ _ _ _ (by omega)]
    have hcast : ((b + 1 : ℕ) : ℚ) - 1 = (b : ℚ) := by
      push_cast
      ring
    have hiff : (j + 2 = b + 1) ↔ (j = b - 1) := by omega
    rw [hcast]
    have hwidth : (1 + eps - (0 - eps)) = 1 + 2 * eps := by ring
    rw [hwidth]
    simp only [hiff]
    push_cast
    rfl
  rw [hfilter]

/-- Witness for C8: one rate/count pair, two bins. -/
theorem diagnostic_histogram_entropy_content_witness :
    compute_histogram_entropy_poisson cdfZero logZero [5] [1] 2 (1 / 100)
      = .ok 0 := by
  rw [diagnostic_histogram_entropy_content cdfZero logZero [5] [1] 2 (1 / 100)
    rfl (by decide)]
  with_unfolding_all decide

end PoissonTraceStats
